import Mathlib

/-!
Verification of `egutils` (django-eg-utils): a shallow embedding of
`src/egutils/forms.py` and `src/egutils/utils.py` in Lean 4, with theorems
settling the specified behaviours of form-field synthesis, validation
exclusions, instance/dict construction and the save path.

Python dicts passed as keyword arguments (`widgets`, `labels`, ...) are
modelled as association lists (`List (String × α)`); `None` and the empty
dict behave identically under Python truthiness and lookup, so both map to
`[]`.  `OrderedDict` is modelled by `odFromList`, which keeps first-insert
position and overwrites values, exactly like CPython's `OrderedDict`.
-/

namespace EGUtils

/-- Python truthiness of an optional list (`None` and `[]` are falsy). -/
def truthyOpt (o : Option (List String)) : Bool :=
  match o with
  | none => false
  | some l => !l.isEmpty

/-- Python truthiness of a list (empty list is falsy). -/
def truthyList (l : List String) : Bool := !l.isEmpty

/-- Python string truthiness (empty string is falsy). -/
def truthyStr (s : String) : Bool := s ≠ ""

/-! ## OrderedDict model -/

/-- `d[k] = v` on an `OrderedDict`: overwrite in place if the key exists,
append otherwise (CPython `OrderedDict.__setitem__`). -/
def odInsert {α : Type} : List (String × α) → String → α → List (String × α)
  | [], k, v => [(k, v)]
  | (k₁, v₁) :: rest, k, v =>
      if k₁ = k then (k₁, v) :: rest else (k₁, v₁) :: odInsert rest k v

/-- `OrderedDict(pairs)`: insert the pairs left to right. -/
def odFromList {α : Type} (l : List (String × α)) : List (String × α) :=
  l.foldl (fun d kv => odInsert d kv.1 kv.2) []

/-- Dictionary lookup (`d.get(k)` / `k in d`): first matching key. -/
def odGet {α : Type} (d : List (String × α)) (k : String) : Option α :=
  (d.find? (fun kv => kv.1 = k)).map Prod.snd

/-! ## The elastic-git data model, as seen by `forms.py` -/

/-- The elastic-git field classes that appear as keys of `FIELD_MAPPING`. -/
inductive EGFieldType where
  | UUIDField
  | TextField
  | UnicodeTextField
  | IntegerField
  | FloatField
  | BooleanField
  | ListField
  | DictField
  | URLField
  deriving DecidableEq, Repr

/-- The Django form-field classes appearing as values of `FIELD_MAPPING`. -/
inductive DjangoFieldClass where
  | CharField
  | IntegerField
  | FloatField
  | BooleanField
  | URLField
  deriving DecidableEq, Repr

/-- `FIELD_MAPPING` from `forms.py`: elastic-git field type to Django form
field class. -/
def FIELD_MAPPING : EGFieldType → DjangoFieldClass
  | .UUIDField => .CharField
  | .TextField => .CharField
  | .UnicodeTextField => .CharField
  | .IntegerField => .IntegerField
  | .FloatField => .FloatField
  | .BooleanField => .BooleanField
  | .ListField => .CharField
  | .DictField => .CharField
  | .URLField => .URLField

/-- `EXCLUDED_FIELDS = ('_version', 'uuid', 'id')` from `forms.py`. -/
def EXCLUDED_FIELDS : List String := ["_version", "uuid", "id"]

/-- A field descriptor as returned by a model's `_get_fields()`:
name, concrete field class, required flag and doc string (`""` models a
missing / `None` doc, which is falsy exactly like the empty string). -/
structure ModelField where
  name : String
  ftype : EGFieldType
  required : Bool
  doc : String
  deriving DecidableEq, Repr

/-- The `localized_fields` argument: `None`, the `ALL_FIELDS` sentinel
string, or a list of names. -/
inductive LocalizedFields where
  | noneL
  | allFields
  | names (l : List String)
  deriving DecidableEq, Repr

/-- `localized_fields == ALL_FIELDS or (localized_fields and f.name in
localized_fields)` from `fields_for_model`. -/
def localizeFlag (lf : LocalizedFields) (name : String) : Bool :=
  match lf with
  | .noneL => false
  | .allFields => true
  | .names l => !l.isEmpty && l.contains name

/-- A synthesized Django form field: the constructor class plus the keyword
arguments `fields_for_model` passes to it (`none` means the kwarg is
omitted; `localize` is omitted-or-`True`, modelled as a Bool defaulting to
`false`; `required` is always passed). -/
structure FormField where
  fieldClass : DjangoFieldClass
  widget : Option String
  localize : Bool
  label : Option String
  help_text : Option String
  error_messages : Option String
  required : Bool
  deriving DecidableEq, Repr

/-- The kwargs-assembly and constructor call for one model field inside the
loop of `fields_for_model`. -/
def mkFormField (f : ModelField) (widgets : List (String × String))
    (localized : LocalizedFields) (labels : List (String × String))
    (help_texts : List (String × String))
    (error_messages : List (String × String)) : FormField :=
  { fieldClass := FIELD_MAPPING f.ftype
    widget := odGet widgets f.name
    localize := localizeFlag localized f.name
    label := odGet labels f.name
    help_text :=
      match odGet help_texts f.name with
      | some h => some h
      | none => if truthyStr f.doc then some f.doc else none
    error_messages := odGet error_messages f.name
    required := f.required }

/-- The filter in the loop of `fields_for_model` (and, for the first two
conditions, of `model_to_dict` and `construct_instance`): `continue` when
the name is in `EXCLUDED_FIELDS`, when `fields is not None` and the name is
not in it, or when `exclude` is truthy and the name is in it. -/
def keepField (fields : Option (List String)) (exclude : List String)
    (name : String) : Bool :=
  !EXCLUDED_FIELDS.contains name &&
    (match fields with
     | none => true
     | some fl => fl.contains name) &&
    !(truthyList exclude && exclude.contains name)

/-- `fields_for_model(model, fields, exclude, widgets, localized_fields,
labels, help_texts, error_messages)` from `forms.py`.  The model is given
by its `_get_fields()` output.  The result is the final `OrderedDict`; a
value of `none` is the `None` placeholder produced by `field_dict.get(f)`
for a requested name with no synthesized field. -/
def fields_for_model (modelFields : List ModelField)
    (fields : Option (List String)) (exclude : List String)
    (widgets : List (String × String)) (localized : LocalizedFields)
    (labels : List (String × String)) (help_texts : List (String × String))
    (error_messages : List (String × String)) :
    List (String × Option FormField) :=
  let field_list : List (String × FormField) :=
    (modelFields.filter (fun f => keepField fields exclude f.name)).map
      (fun f =>
        (f.name, mkFormField f widgets localized labels help_texts
          error_messages))
  let field_dict := odFromList field_list
  match fields with
  | some fl =>
      if fl.isEmpty then field_dict.map (fun kv => (kv.1, some kv.2))
      else
        odFromList
          ((fl.filter
              (fun f => !truthyList exclude ||
                (truthyList exclude && !exclude.contains f))).map
            (fun f => (f, odGet field_dict f)))
  | none => field_dict.map (fun kv => (kv.1, some kv.2))

/-- `model_to_dict(model, fields, exclude)` from `forms.py`: the model is
its `_get_fields()` list together with a `getattr` valuation. -/
def model_to_dict (modelFields : List ModelField) (getattr : String → String)
    (fields : Option (List String)) (exclude : List String) :
    List (String × String) :=
  odFromList
    ((modelFields.filter (fun f => keepField fields exclude f.name)).map
      (fun f => (f.name, getattr f.name)))

/-- The `data` dict built by `construct_instance(form, instance, fields,
exclude)` before it is handed to `instance.update(data)`; `cleaned_data` is
the form's cleaned-data valuation. -/
def construct_instance_data (instFields : List ModelField)
    (cleaned_data : String → String) (fields : Option (List String))
    (exclude : List String) : List (String × String) :=
  odFromList
    ((instFields.filter (fun f => keepField fields exclude f.name)).map
      (fun f => (f.name, cleaned_data f.name)))

/-! ## `ModelFormMetaclass.__new__` -/

/-- The `Meta.fields` option: absent (`None`), the `ALL_FIELDS` sentinel
`'__all__'`, or a list of names. -/
inductive MetaFieldsOpt where
  | unspecified
  | allFields
  | names (l : List String)
  deriving DecidableEq, Repr

/-- The configuration errors raised at class-definition time. -/
inductive MetaclassError where
  | improperlyConfigured
  | fieldError (missing : List String)
  deriving DecidableEq, Repr

/-- The model-handling branch of `ModelFormMetaclass.__new__` (the branch
taken when `opts.model` is set): checks the `fields`/`exclude`
configuration, synthesizes fields via `fields_for_model`, raises
`FieldError` for requested names that got a `None` placeholder and are not
declared, then merges the declared fields with `fields.update(...)`. -/
def modelFormNew (modelFields : List ModelField)
    (metaFields : MetaFieldsOpt) (metaExclude : Option (List String))
    (declaredFields : List (String × FormField))
    (widgets : List (String × String)) (localized : LocalizedFields)
    (labels : List (String × String)) (help_texts : List (String × String))
    (error_messages : List (String × String)) :
    Except MetaclassError (List (String × Option FormField)) :=
  if metaFields = .unspecified ∧ metaExclude = none then
    .error .improperlyConfigured
  else
    let fieldsArg : Option (List String) :=
      match metaFields with
      | .unspecified => none
      | .allFields => none
      | .names l => some l
    let flds := fields_for_model modelFields fieldsArg
      (metaExclude.getD []) widgets localized labels help_texts
      error_messages
    let none_model_fields := (flds.filter (fun kv => kv.2 = none)).map
      Prod.fst
    let missing := none_model_fields.filter
      (fun k => !(declaredFields.map Prod.fst).contains k)
    if missing.isEmpty then
      .ok (declaredFields.foldl
        (fun d kv => odInsert d kv.1 (some kv.2)) flds)
    else
      .error (.fieldError missing)

/-! ## `BaseEGModelForm.save` -/

/-- The part of a form instance's state that `save` reads: the instance's
class name and its `uuid` (empty string models a falsy / unset uuid). -/
structure EGInstance where
  className : String
  uuid : String
  deriving DecidableEq, Repr

/-- One invocation of `workspace.save(instance, message, author,
committer)`. -/
structure WorkspaceSaveCall where
  inst : EGInstance
  message : String
  author : Option String
  committer : Option String
  deriving DecidableEq, Repr

/-- Python `message or default` where `message` is an optional string:
`None` and `''` both fall through to the default. -/
def pyOrStr (message : Option String) (default : String) : String :=
  match message with
  | none => default
  | some m => if truthyStr m then m else default

/-- `BaseEGModelForm.save(commit, workspace, message, author, committer)`.
The form's state is its (truthiness-relevant) error keys and its instance;
`workspace` is opaque, only its presence matters here.  The result is the
Python return value or raised `ValueError` message, paired with the list of
`workspace.save` invocations the call performed. -/
def save (errors : List String) (inst : EGInstance) (commit : Bool)
    (workspace : Option Unit) (message : Option String)
    (author committer : Option String) :
    Except String EGInstance × List WorkspaceSaveCall :=
  if truthyList errors then
    (.error ("The " ++ inst.className ++ " could not be " ++
      (if truthyStr inst.uuid then "updated" else "created") ++
      " because the data didn't validate."), [])
  else if commit then
    match workspace with
    | none => (.error "Workspace was not provided.", [])
    | some _ =>
        let msg := pyOrStr message (inst.className ++ " " ++
          (if truthyStr inst.uuid then "updated" else "created"))
        (.ok inst, [⟨inst, msg, author, committer⟩])
  else
    (.ok inst, [])

/-! ## `_get_validation_exclusions` -/

/-- `BaseEGModelForm._get_validation_exclusions()`: the form's state is the
form's field names (`self.fields`), the `Meta.fields` and `Meta.exclude`
options and the keys of `self._errors`; the loop runs over the instance's
`_get_fields()`, appending the field name under the first matching branch
of the `if`/`elif` chain. -/
def get_validation_exclusions (formFields : List String)
    (metaFields : Option (List String)) (metaExclude : Option (List String))
    (errorKeys : List String) : List ModelField → List String
  | [] => []
  | f :: rest =>
      let tail := get_validation_exclusions formFields metaFields
        metaExclude errorKeys rest
      if !formFields.contains f.name then f.name :: tail
      else if truthyOpt metaFields &&
          !(metaFields.getD []).contains f.name then f.name :: tail
      else if truthyOpt metaExclude &&
          (metaExclude.getD []).contains f.name then f.name :: tail
      else if errorKeys.contains f.name then f.name :: tail
      else tail

/-! ## `utils.get_schema` -/

/-- An Avro schema object; opaque here, only identity matters. -/
structure AvroSchema where
  json : String
  deriving DecidableEq, Repr

/-- `utils.get_schema(repo, content_type)`.  The filesystem is a partial
map from paths to file contents (`none` models the `IOError` on `open`),
and `avro.schema.parse` is an opaque total parser parameter. -/
def get_schema (fs : String → Option String)
    (parse : String → AvroSchema) (working_dir : String)
    (content_type : String) : Except String AvroSchema :=
  match fs (working_dir ++ "/_schemas/" ++ content_type ++ ".avsc") with
  | none => .error "Schema does not exist"
  | some data => .ok (parse data)

/-- A concrete filesystem for evaluating `get_schema`: one schema file at
`repo/_schemas/page.avsc`. -/
def fsW : String → Option String :=
  fun p => if p = "repo/_schemas/page.avsc" then some "x" else none

/-- A concrete parser for evaluating `get_schema`. -/
def parseW : String → AvroSchema := fun s => ⟨s⟩

/-! ## OrderedDict lemmas -/

theorem odGet_cons {α : Type} (k₁ k : String) (v₁ : α)
    (d : List (String × α)) :
    odGet ((k₁, v₁) :: d) k = if k₁ = k then some v₁ else odGet d k := by
  by_cases h : k₁ = k <;> simp [odGet, List.find?_cons, h]

theorem odGet_odInsert_self {α : Type} (d : List (String × α)) (k : String)
    (v : α) : odGet (odInsert d k v) k = some v := by
  induction d with
  | nil => simp [odInsert, odGet, List.find?_cons]
  | cons kv rest ih =>
      obtain ⟨k₁, v₁⟩ := kv
      by_cases h : k₁ = k
      · simp [odInsert, h, odGet_cons]
      · simp [odInsert, h, odGet_cons, ih]

theorem odGet_odInsert_ne {α : Type} (d : List (String × α))
    (k k' : String) (v : α) (h : k' ≠ k) :
    odGet (odInsert d k v) k' = odGet d k' := by
  induction d with
  | nil => simp [odInsert, odGet_cons, odGet, Ne.symm h]
  | cons kv rest ih =>
      obtain ⟨k₁, v₁⟩ := kv
      by_cases h₁ : k₁ = k
      · subst h₁
        simp [odInsert, odGet_cons, Ne.symm h]
      · simp [odInsert, h₁, odGet_cons, ih]

theorem odInsert_keys {α : Type} (d : List (String × α)) (k : String)
    (v : α) :
    (odInsert d k v).map Prod.fst =
      if k ∈ d.map Prod.fst then d.map Prod.fst
      else d.map Prod.fst ++ [k] := by
  induction d with
  | nil => simp [odInsert]
  | cons kv rest ih =>
      obtain ⟨k₁, v₁⟩ := kv
      by_cases h : k₁ = k
      · subst h
        simp [odInsert]
      · by_cases h₂ : k ∈ rest.map Prod.fst <;>
          simp [odInsert, h, ih, h₂, Ne.symm h]

theorem odInsert_of_not_mem_keys {α : Type} (d : List (String × α))
    (k : String) (v : α) (h : k ∉ d.map Prod.fst) :
    odInsert d k v = d ++ [(k, v)] := by
  induction d with
  | nil => simp [odInsert]
  | cons kv rest ih =>
      obtain ⟨k₁, v₁⟩ := kv
      simp only [List.map_cons, List.mem_cons, not_or] at h
      simp [odInsert, Ne.symm h.1, ih h.2]

theorem odFromList_foldl_eq_append {α : Type} (l d : List (String × α))
    (h : (d.map Prod.fst ++ l.map Prod.fst).Nodup) :
    l.foldl (fun d kv => odInsert d kv.1 kv.2) d = d ++ l := by
  induction l generalizing d with
  | nil => simp
  | cons kv rest ih =>
      obtain ⟨k, v⟩ := kv
      have hnd := List.nodup_append.mp (by simpa using h)
      have hk : k ∉ d.map Prod.fst := fun hmem =>
        hnd.2.2 hmem (List.mem_cons_self _ _)
      have h₂ : ((d ++ [(k, v)]).map Prod.fst ++
          rest.map Prod.fst).Nodup := by
        simpa [List.append_assoc] using h
      rw [List.foldl_cons, odInsert_of_not_mem_keys d k v hk, ih _ h₂]
      simp

theorem odFromList_eq_self {α : Type} (l : List (String × α))
    (h : (l.map Prod.fst).Nodup) : odFromList l = l := by
  simpa using odFromList_foldl_eq_append l [] (by simpa using h)

theorem mem_keys_foldl_odInsert {α : Type} (l d : List (String × α))
    (a : String) :
    (a ∈ (l.foldl (fun d kv => odInsert d kv.1 kv.2) d).map Prod.fst) ↔
      a ∈ d.map Prod.fst ∨ a ∈ l.map Prod.fst := by
  induction l generalizing d with
  | nil => simp
  | cons kv rest ih =>
      obtain ⟨k, v⟩ := kv
      rw [List.foldl_cons, ih]
      rw [odInsert_keys]
      by_cases h : k ∈ d.map Prod.fst
      · simp only [h, if_true, List.map_cons, List.mem_cons]
        constructor
        · rintro (h₁ | h₂)
          · exact Or.inl h₁
          · exact Or.inr (Or.inr h₂)
        · rintro (h₁ | h₂ | h₃)
          · exact Or.inl h₁
          · exact Or.inl (h₂ ▸ h)
          · exact Or.inr h₃
      · simp only [h, if_false, List.mem_append, List.mem_singleton,
          List.map_cons, List.mem_cons]
        tauto

theorem mem_keys_odFromList {α : Type} (l : List (String × α))
    (a : String) :
    a ∈ (odFromList l).map Prod.fst ↔ a ∈ l.map Prod.fst := by
  simpa using mem_keys_foldl_odInsert l [] a

theorem keys_nodup_foldl_odInsert {α : Type} (l d : List (String × α))
    (h : (d.map Prod.fst).Nodup) :
    ((l.foldl (fun d kv => odInsert d kv.1 kv.2) d).map Prod.fst).Nodup := by
  induction l generalizing d with
  | nil => simpa using h
  | cons kv rest ih =>
      obtain ⟨k, v⟩ := kv
      rw [List.foldl_cons]
      refine ih _ ?_
      rw [odInsert_keys]
      by_cases hmem : k ∈ d.map Prod.fst
      · simpa [hmem] using h
      · rw [if_neg hmem, List.nodup_append]
        refine ⟨h, List.nodup_singleton _, fun a ha hb => hmem ?_⟩
        rw [List.mem_singleton.mp hb] at ha
        exact ha

theorem keys_nodup_odFromList {α : Type} (l : List (String × α)) :
    ((odFromList l).map Prod.fst).Nodup := by
  simpa using keys_nodup_foldl_odInsert l [] (by simp)

theorem odGet_eq_none_iff {α : Type} (d : List (String × α)) (k : String) :
    odGet d k = none ↔ k ∉ d.map Prod.fst := by
  induction d with
  | nil => simp [odGet]
  | cons kv rest ih =>
      obtain ⟨k₁, v₁⟩ := kv
      rw [odGet_cons]
      by_cases h : k₁ = k
      · subst h
        simp
      · have h' : k ≠ k₁ := fun hh => h hh.symm
        simp [h, ih, h']

theorem odGet_foldl_const {α : Type} (l d : List (String × α)) (k : String)
    (v₀ : α) (hval : ∀ v, (k, v) ∈ l → v = v₀)
    (hsrc : k ∈ l.map Prod.fst ∨ odGet d k = some v₀) :
    odGet (l.foldl (fun d kv => odInsert d kv.1 kv.2) d) k = some v₀ := by
  induction l generalizing d with
  | nil => simpa using hsrc
  | cons kv rest ih =>
      obtain ⟨k₁, w⟩ := kv
      rw [List.foldl_cons]
      refine ih _ (fun v hv => hval v (List.mem_cons_of_mem _ hv)) ?_
      by_cases h : k₁ = k
      · subst h
        have hw : w = v₀ := hval w (List.mem_cons_self _ _)
        exact Or.inr (hw ▸ odGet_odInsert_self d k₁ w)
      · rcases hsrc with hmem | hget
        · simp only [List.map_cons] at hmem
          rcases List.mem_cons.mp hmem with h₁ | h₁
          · exact absurd h₁.symm h
          · exact Or.inl h₁
        · exact Or.inr ((odGet_odInsert_ne d k₁ k w (Ne.symm h)) ▸ hget)

theorem odGet_odFromList_const {α : Type} (l : List (String × α))
    (k : String) (v₀ : α) (hval : ∀ v, (k, v) ∈ l → v = v₀)
    (hmem : k ∈ l.map Prod.fst) : odGet (odFromList l) k = some v₀ :=
  odGet_foldl_const l [] k v₀ hval (Or.inl hmem)

theorem odGet_map_some {α : Type} (d : List (String × α)) (k : String) :
    odGet (d.map (fun kv => (kv.1, some kv.2))) k = (odGet d k).map some := by
  induction d with
  | nil => simp [odGet]
  | cons kv rest ih =>
      obtain ⟨k₁, v₁⟩ := kv
      simp only [List.map_cons]
      rw [odGet_cons, odGet_cons]
      by_cases h : k₁ = k <;> simp [h, ih]

theorem odGet_of_mem_nodup {α : Type} (l : List (String × α)) (k : String)
    (v : α) (hnd : (l.map Prod.fst).Nodup) (hmem : (k, v) ∈ l) :
    odGet l k = some v := by
  induction l with
  | nil => simp at hmem
  | cons kv rest ih =>
      obtain ⟨k₁, v₁⟩ := kv
      rw [odGet_cons]
      simp only [List.map_cons, List.nodup_cons] at hnd
      rcases List.mem_cons.mp hmem with h | h
      · cases h
        simp
      · have hk : k₁ ≠ k := by
          rintro rfl
          exact hnd.1 (List.mem_map.mpr ⟨(k₁, v), h, rfl⟩)
        simp [hk, ih hnd.2 h]

/-! ## Claims about `BaseEGModelForm.save` -/

/-- C1: for every bound form whose validation produced errors, `save`
raises a `ValueError` whose message says the instance could not be
created/updated because the data didn't validate, and the workspace's
`save` operation is never invoked. -/
theorem save_with_errors_raises (errors : List String) (inst : EGInstance)
    (commit : Bool) (workspace : Option Unit)
    (message author committer : Option String) (h : errors ≠ []) :
    save errors inst commit workspace message author committer =
      (.error ("The " ++ inst.className ++ " could not be " ++
        (if truthyStr inst.uuid then "updated" else "created") ++
        " because the data didn't validate."), []) := by
  simp [save, truthyList, h]

theorem save_with_errors_raises_witness :
    (["title"] : List String) ≠ [] ∧
      save ["title"] ⟨"Page", ""⟩ true (some ()) none none none =
        (.error
          "The Page could not be created because the data didn't validate.",
          []) := by
  refine ⟨by decide, ?_⟩
  rw [save_with_errors_raises ["title"] ⟨"Page", ""⟩ true (some ()) none
    none none (by decide)]
  rfl

/-- C6: for every error-free form saved with `commit=True`, a workspace
and no explicit message, the commit message passed to `workspace.save` is
the instance's class name followed by " updated" when the instance has a
non-empty uuid and by " created" otherwise. -/
theorem save_default_message (inst : EGInstance)
    (author committer : Option String) :
    save [] inst true (some ()) none author committer =
      (.ok inst,
        [⟨inst,
          inst.className ++ " " ++
            (if truthyStr inst.uuid then "updated" else "created"),
          author, committer⟩]) := by
  simp [save, truthyList, pyOrStr]

/-- C7: for every error-free form, `save` with `commit=True` and no
workspace raises a `ValueError` and performs no `workspace.save` call. -/
theorem save_no_workspace_raises (inst : EGInstance)
    (message author committer : Option String) :
    save [] inst true none message author committer =
      (.error "Workspace was not provided.", []) := by
  simp [save, truthyList]

/-- C10: for every error-free form, `save` with `commit=False` returns the
instance, performs no `workspace.save` call and raises nothing, for any
workspace argument including `None`. -/
theorem save_no_commit (inst : EGInstance) (workspace : Option Unit)
    (message author committer : Option String) :
    save [] inst false workspace message author committer =
      (.ok inst, []) := by
  simp [save, truthyList]

/-! ## Claim about `utils.get_schema` -/

/-- C8: `get_schema` raises a `ValueError` when no file named
`<content_type>.avsc` exists under the working directory's `_schemas`
directory, and otherwise parses the file's contents as an Avro schema and
returns the parsed schema. -/
theorem get_schema_missing_or_parsed (fs : String → Option String)
    (parse : String → AvroSchema) (working_dir content_type : String) :
    (fs (working_dir ++ "/_schemas/" ++ content_type ++ ".avsc") = none →
      get_schema fs parse working_dir content_type =
        .error "Schema does not exist") ∧
    (∀ data,
      fs (working_dir ++ "/_schemas/" ++ content_type ++ ".avsc") =
          some data →
      get_schema fs parse working_dir content_type = .ok (parse data)) := by
  constructor
  · intro h
    simp [get_schema, h]
  · intro data h
    simp [get_schema, h]

theorem get_schema_missing_or_parsed_witness :
    get_schema fsW parseW "repo" "page" = .ok (parseW "x") ∧
      get_schema fsW parseW "repo" "missing" =
        .error "Schema does not exist" :=
  ⟨(get_schema_missing_or_parsed fsW parseW "repo" "page").2 "x" (by rfl),
   (get_schema_missing_or_parsed fsW parseW "repo" "missing").1 (by rfl)⟩

/-! ## Claim about `EXCLUDED_FIELDS` -/

/-- C9: `model_to_dict` and `construct_instance` never copy the internal
fields `_version`, `uuid` and `id`: the dicts they build never contain
these keys, for every `fields`/`exclude` argument. -/
theorem excluded_fields_never_copied (modelFields : List ModelField)
    (getattr cleaned_data : String → String)
    (fields : Option (List String)) (exclude : List String) (k : String)
    (h : k ∈ EXCLUDED_FIELDS) :
    k ∉ (model_to_dict modelFields getattr fields exclude).map Prod.fst ∧
    k ∉ (construct_instance_data modelFields cleaned_data fields
        exclude).map Prod.fst := by
  refine ⟨?_, ?_⟩ <;>
    · intro hk
      simp only [model_to_dict, construct_instance_data] at hk
      rw [mem_keys_odFromList] at hk
      simp only [List.map_map, List.mem_map, Function.comp] at hk
      obtain ⟨f, hf, hfk⟩ := hk
      have hkeep := (List.mem_filter.mp hf).2
      simp only [keepField] at hkeep
      simp only [Bool.and_eq_true, Bool.not_eq_true'] at hkeep
      have hnot : f.name ∉ EXCLUDED_FIELDS := by
        simpa using hkeep.1.1
      exact hnot (hfk ▸ h)

theorem excluded_fields_never_copied_witness :
    ("uuid" : String) ∈ EXCLUDED_FIELDS ∧
      ("uuid" ∉ (model_to_dict
          [⟨"uuid", .UUIDField, true, ""⟩, ⟨"title", .TextField, true, ""⟩]
          (fun _ => "v") (some ["uuid", "title"]) []).map Prod.fst ∧
       "uuid" ∉ (construct_instance_data
          [⟨"uuid", .UUIDField, true, ""⟩, ⟨"title", .TextField, true, ""⟩]
          (fun _ => "v") (some ["uuid", "title"]) []).map Prod.fst) :=
  ⟨by decide,
   excluded_fields_never_copied
     [⟨"uuid", .UUIDField, true, ""⟩, ⟨"title", .TextField, true, ""⟩]
     (fun _ => "v") (fun _ => "v") (some ["uuid", "title"]) [] "uuid"
     (by decide)⟩

/-! ## Claim about `_get_validation_exclusions` -/

theorem gve_cons (ff : List String) (mf me : Option (List String))
    (err : List String) (g : ModelField) (rest : List ModelField) :
    get_validation_exclusions ff mf me err (g :: rest) =
      if (!ff.contains g.name ||
          (truthyOpt mf && !(mf.getD []).contains g.name) ||
          (truthyOpt me && (me.getD []).contains g.name) ||
          err.contains g.name)
      then g.name :: get_validation_exclusions ff mf me err rest
      else get_validation_exclusions ff mf me err rest := by
  by_cases h₁ : g.name ∈ ff <;>
  by_cases h₂ : truthyOpt mf = true ∧ g.name ∉ mf.getD [] <;>
  by_cases h₃ : truthyOpt me = true ∧ g.name ∈ me.getD [] <;>
  by_cases h₄ : g.name ∈ err <;>
    simp [get_validation_exclusions, h₁, h₂, h₃, h₄]

theorem mem_gve_iff (ff : List String) (mf me : Option (List String))
    (err : List String) (l : List ModelField) (k : String) :
    k ∈ get_validation_exclusions ff mf me err l ↔
      (∃ g, g ∈ l ∧ g.name = k) ∧
        (!ff.contains k ||
         (truthyOpt mf && !(mf.getD []).contains k) ||
         (truthyOpt me && (me.getD []).contains k) ||
         err.contains k) = true := by
  induction l with
  | nil => simp [get_validation_exclusions]
  | cons g rest ih =>
      rw [gve_cons]
      by_cases hc : (!ff.contains g.name ||
          (truthyOpt mf && !(mf.getD []).contains g.name) ||
          (truthyOpt me && (me.getD []).contains g.name) ||
          err.contains g.name) = true
      · rw [if_pos hc]
        constructor
        · intro hmem
          rcases List.mem_cons.mp hmem with rfl | htail
          · exact ⟨⟨g, List.mem_cons_self _ _, rfl⟩, hc⟩
          · obtain ⟨⟨g', hg', hname⟩, hcond⟩ := ih.mp htail
            exact ⟨⟨g', List.mem_cons_of_mem _ hg', hname⟩, hcond⟩
        · rintro ⟨⟨g', hg', rfl⟩, hcond⟩
          rcases List.mem_cons.mp hg' with rfl | hmem
          · exact List.mem_cons_self _ _
          · exact List.mem_cons_of_mem _ (ih.mpr ⟨⟨g', hmem, rfl⟩, hcond⟩)
      · rw [if_neg hc, ih]
        constructor
        · rintro ⟨⟨g', hg', rfl⟩, hcond⟩
          exact ⟨⟨g', List.mem_cons_of_mem _ hg', rfl⟩, hcond⟩
        · rintro ⟨⟨g', hg', rfl⟩, hcond⟩
          rcases List.mem_cons.mp hg' with rfl | hmem
          · exact absurd hcond hc
          · exact ⟨⟨g', hmem, rfl⟩, hcond⟩

/-- C2: for every model field of the form's instance,
`_get_validation_exclusions` puts the field's name in the exclusion list
iff the field is not present in the form's fields, or the Meta `fields`
list is non-empty and the field is not in it, or the Meta `exclude` list
is non-empty and the field is in it, or the field is a key of the form's
validation errors. -/
theorem validation_exclusions_iff (ff : List String)
    (mf me : Option (List String)) (err : List String)
    (instFields : List ModelField) (f : ModelField)
    (hf : f ∈ instFields) :
    f.name ∈ get_validation_exclusions ff mf me err instFields ↔
      (f.name ∉ ff ∨
       (truthyOpt mf = true ∧ f.name ∉ mf.getD []) ∨
       (truthyOpt me = true ∧ f.name ∈ me.getD []) ∨
       f.name ∈ err) := by
  rw [mem_gve_iff]
  constructor
  · rintro ⟨-, hcond⟩
    have h' : ((f.name ∉ ff ∨
        (truthyOpt mf = true ∧ f.name ∉ mf.getD [])) ∨
        (truthyOpt me = true ∧ f.name ∈ me.getD [])) ∨
        f.name ∈ err := by simpa using hcond
    tauto
  · intro h
    refine ⟨⟨f, hf, rfl⟩, ?_⟩
    have h' : ((f.name ∉ ff ∨
        (truthyOpt mf = true ∧ f.name ∉ mf.getD [])) ∨
        (truthyOpt me = true ∧ f.name ∈ me.getD [])) ∨
        f.name ∈ err := by tauto
    simpa using h'

theorem validation_exclusions_iff_witness :
    (⟨"title", .TextField, true, ""⟩ : ModelField) ∈
        [(⟨"title", .TextField, true, ""⟩ : ModelField)] ∧
      ((ModelField.name ⟨"title", .TextField, true, ""⟩) ∈
          get_validation_exclusions [] none none []
            [⟨"title", .TextField, true, ""⟩] ↔
        ((ModelField.name ⟨"title", .TextField, true, ""⟩) ∉
            ([] : List String) ∨
         (truthyOpt none = true ∧
           (ModelField.name ⟨"title", .TextField, true, ""⟩) ∉
             (none : Option (List String)).getD []) ∨
         (truthyOpt none = true ∧
           (ModelField.name ⟨"title", .TextField, true, ""⟩) ∈
             (none : Option (List String)).getD []) ∨
         (ModelField.name ⟨"title", .TextField, true, ""⟩) ∈
           ([] : List String))) :=
  ⟨by decide,
   validation_exclusions_iff [] none none []
     [⟨"title", .TextField, true, ""⟩]
     ⟨"title", .TextField, true, ""⟩ (by decide)⟩

/-! ## Claims about `fields_for_model` -/

theorem reorder_pred_eq (exclude : List String) (g : String) :
    (!truthyList exclude ||
      (truthyList exclude && !exclude.contains g)) =
      !exclude.contains g := by
  cases exclude <;> simp [truthyList]

theorem keepField_true_of (fields : Option (List String))
    (exclude : List String) (name : String)
    (h₁ : name ∉ EXCLUDED_FIELDS)
    (h₂ : ∀ fl, fields = some fl → name ∈ fl) (h₃ : name ∉ exclude) :
    keepField fields exclude name = true := by
  simp only [keepField, Bool.and_eq_true, Bool.not_eq_true']
  refine ⟨⟨by simpa using h₁, ?_⟩, ?_⟩
  · cases fields with
    | none => rfl
    | some fl => simpa using h₂ fl rfl
  · have hc : exclude.contains name = false := by simpa using h₃
    rw [hc, Bool.and_false]

theorem map_fst_pairing {β : Type} (l : List String) (h : String → β) :
    ((l.map (fun g => (g, h g))).map Prod.fst) = l := by
  induction l with
  | nil => rfl
  | cons a t ih => simp only [List.map_cons, ih]

/-- C3: every model field that is not internally excluded, not omitted by
the `fields` argument and not named in `exclude` yields exactly one form
field in the result of `fields_for_model`, built from the `FIELD_MAPPING`
lookup with the per-field widget, label, help-text, error-message,
localization and required settings of `mkFormField` (help text defaults to
the field's doc string when no override is supplied). -/
theorem fields_for_model_one_field (modelFields : List ModelField)
    (fields : Option (List String)) (exclude : List String)
    (w : List (String × String)) (loc : LocalizedFields)
    (lb ht em : List (String × String)) (f : ModelField)
    (hf : f ∈ modelFields)
    (hnd : (modelFields.map ModelField.name).Nodup)
    (hexcl : f.name ∉ EXCLUDED_FIELDS)
    (hfields : ∀ fl, fields = some fl → f.name ∈ fl)
    (hexc : f.name ∉ exclude) :
    ((fields_for_model modelFields fields exclude w loc lb ht
        em).map Prod.fst).count f.name = 1 ∧
      odGet (fields_for_model modelFields fields exclude w loc lb ht em)
          f.name = some (some (mkFormField f w loc lb ht em)) := by
  have hkeep : keepField fields exclude f.name = true :=
    keepField_true_of fields exclude f.name hexcl hfields hexc
  have hfmem : f ∈ modelFields.filter
      (fun g => keepField fields exclude g.name) :=
    List.mem_filter.mpr ⟨hf, hkeep⟩
  have hsub : List.Sublist
      ((modelFields.filter
        (fun g => keepField fields exclude g.name)).map ModelField.name)
      (modelFields.map ModelField.name) :=
    (List.filter_sublist _).map _
  have hkeysnd : ((modelFields.filter
      (fun g => keepField fields exclude g.name)).map
        ModelField.name).Nodup := hnd.sublist hsub
  have hfl_keys : (((modelFields.filter
        (fun g => keepField fields exclude g.name)).map
        (fun g => (g.name, mkFormField g w loc lb ht em))).map
        Prod.fst) =
      (modelFields.filter
        (fun g => keepField fields exclude g.name)).map
        ModelField.name := by
    simp [List.map_map, Function.comp]
  have hfd : odFromList ((modelFields.filter
        (fun g => keepField fields exclude g.name)).map
        (fun g => (g.name, mkFormField g w loc lb ht em))) =
      (modelFields.filter
        (fun g => keepField fields exclude g.name)).map
        (fun g => (g.name, mkFormField g w loc lb ht em)) :=
    odFromList_eq_self _ (by rw [hfl_keys]; exact hkeysnd)
  have hget_fd : odGet ((modelFields.filter
        (fun g => keepField fields exclude g.name)).map
        (fun g => (g.name, mkFormField g w loc lb ht em))) f.name =
      some (mkFormField f w loc lb ht em) :=
    odGet_of_mem_nodup _ _ _ (by rw [hfl_keys]; exact hkeysnd)
      (List.mem_map.mpr ⟨f, hfmem, rfl⟩)
  rcases fields with _ | fl
  · have hunf : fields_for_model modelFields none exclude w loc lb ht em =
        (odFromList ((modelFields.filter
            (fun g => keepField none exclude g.name)).map
            (fun g => (g.name, mkFormField g w loc lb ht em)))).map
          (fun kv => (kv.1, some kv.2)) := rfl
    rw [hunf, hfd]
    constructor
    · have hkm : ((((modelFields.filter
            (fun g => keepField none exclude g.name)).map
            (fun g => (g.name, mkFormField g w loc lb ht em))).map
            (fun kv => (kv.1, some kv.2))).map Prod.fst) =
          (modelFields.filter
            (fun g => keepField none exclude g.name)).map
            ModelField.name := by
        simp [List.map_map, Function.comp]
      rw [hkm]
      exact List.count_eq_one_of_mem hkeysnd
        (List.mem_map.mpr ⟨f, hfmem, rfl⟩)
    · rw [odGet_map_some, hget_fd]
      rfl
  · have hmemfl : f.name ∈ fl := hfields fl rfl
    have hflne : fl.isEmpty = false := by
      cases fl with
      | nil => simp at hmemfl
      | cons a t => rfl
    have hunf : fields_for_model modelFields (some fl) exclude w loc lb
          ht em =
        if fl.isEmpty then
          (odFromList ((modelFields.filter
              (fun g => keepField (some fl) exclude g.name)).map
              (fun g => (g.name, mkFormField g w loc lb ht em)))).map
            (fun kv => (kv.1, some kv.2))
        else
          odFromList ((fl.filter (fun g => !truthyList exclude ||
              (truthyList exclude && !exclude.contains g))).map
            (fun g => (g, odGet (odFromList ((modelFields.filter
              (fun g => keepField (some fl) exclude g.name)).map
              (fun g => (g.name, mkFormField g w loc lb ht em)))) g))) :=
      rfl
    rw [hunf, if_neg (by simp [hflne]), hfd]
    have hq : fl.filter (fun g => !truthyList exclude ||
          (truthyList exclude && !exclude.contains g)) =
        fl.filter (fun g => !exclude.contains g) :=
      List.filter_congr (fun a _ => reorder_pred_eq exclude a)
    rw [hq]
    have hmemq : f.name ∈ fl.filter (fun g => !exclude.contains g) :=
      List.mem_filter.mpr ⟨hmemfl, by simpa using hexc⟩
    have hkeys : (((fl.filter (fun g => !exclude.contains g)).map
          (fun g => (g, odGet ((modelFields.filter
            (fun g => keepField (some fl) exclude g.name)).map
            (fun g => (g.name, mkFormField g w loc lb ht em))) g))).map
          Prod.fst) =
        fl.filter (fun g => !exclude.contains g) :=
      map_fst_pairing _ _
    have hval : ∀ v, (f.name, v) ∈ ((fl.filter
          (fun g => !exclude.contains g)).map
          (fun g => (g, odGet ((modelFields.filter
            (fun g => keepField (some fl) exclude g.name)).map
            (fun g => (g.name, mkFormField g w loc lb ht em))) g))) →
        v = some (mkFormField f w loc lb ht em) := by
      intro v hv
      obtain ⟨g, hg, heq⟩ := List.mem_map.mp hv
      have h1 : g = f.name := congrArg Prod.fst heq
      have h2 := congrArg Prod.snd heq
      simp only at h2
      subst h1
      rw [← h2, hget_fd]
    constructor
    · have hmemk : f.name ∈ (((fl.filter
            (fun g => !exclude.contains g)).map
            (fun g => (g, odGet ((modelFields.filter
              (fun g => keepField (some fl) exclude g.name)).map
              (fun g => (g.name, mkFormField g w loc lb ht em))) g))).map
            Prod.fst) := by
        rw [hkeys]; exact hmemq
      have hndk := keys_nodup_odFromList ((fl.filter
          (fun g => !exclude.contains g)).map
          (fun g => (g, odGet ((modelFields.filter
            (fun g => keepField (some fl) exclude g.name)).map
            (fun g => (g.name, mkFormField g w loc lb ht em))) g)))
      exact List.count_eq_one_of_mem hndk
        ((mem_keys_odFromList _ _).mpr hmemk)
    · refine odGet_odFromList_const _ _ _ hval ?_
      rw [hkeys]; exact hmemq

theorem fields_for_model_one_field_witness :
    ((fields_for_model
        [⟨"title", .TextField, true, "Page title"⟩,
         ⟨"views", .IntegerField, false, ""⟩]
        (some ["title", "views"]) [] [("title", "textarea")]
        (.names ["title"]) [("title", "Title")] [] []).map
        Prod.fst).count
      (ModelField.name ⟨"title", .TextField, true, "Page title"⟩) = 1 ∧
      odGet (fields_for_model
          [⟨"title", .TextField, true, "Page title"⟩,
           ⟨"views", .IntegerField, false, ""⟩]
          (some ["title", "views"]) [] [("title", "textarea")]
          (.names ["title"]) [("title", "Title")] [] [])
        (ModelField.name ⟨"title", .TextField, true, "Page title"⟩) =
      some (some (mkFormField ⟨"title", .TextField, true, "Page title"⟩
        [("title", "textarea")] (.names ["title"]) [("title", "Title")]
        [] [])) :=
  fields_for_model_one_field
    [⟨"title", .TextField, true, "Page title"⟩,
     ⟨"views", .IntegerField, false, ""⟩]
    (some ["title", "views"]) [] [("title", "textarea")]
    (.names ["title"]) [("title", "Title")] [] []
    ⟨"title", .TextField, true, "Page title"⟩
    (by decide) (by decide) (by decide)
    (by intro fl h; cases h; decide) (by decide)

/-- C4: with a non-empty `fields` list, the keys of the mapping returned
by `fields_for_model` are exactly the names of that list that are not in
`exclude`, in the order of the list; a requested name with no synthesized
form field is mapped to the `None` placeholder. -/
theorem fields_for_model_reorder (modelFields : List ModelField)
    (fl : List String) (exclude : List String)
    (w : List (String × String)) (loc : LocalizedFields)
    (lb ht em : List (String × String))
    (hne : fl ≠ []) (hnd : fl.Nodup) :
    ((fields_for_model modelFields (some fl) exclude w loc lb ht em).map
        Prod.fst) = fl.filter (fun g => !exclude.contains g) ∧
    (∀ g, g ∈ fl → g ∉ exclude →
      (∀ mfld, mfld ∈ modelFields → ModelField.name mfld ≠ g) →
      odGet (fields_for_model modelFields (some fl) exclude w loc lb ht
        em) g = some none) := by
  have hflne : fl.isEmpty = false := by
    cases fl with
    | nil => exact absurd rfl hne
    | cons a t => rfl
  have hunf : fields_for_model modelFields (some fl) exclude w loc lb ht
        em =
      if fl.isEmpty then
        (odFromList ((modelFields.filter
            (fun g => keepField (some fl) exclude g.name)).map
            (fun g => (g.name, mkFormField g w loc lb ht em)))).map
          (fun kv => (kv.1, some kv.2))
      else
        odFromList ((fl.filter (fun g => !truthyList exclude ||
            (truthyList exclude && !exclude.contains g))).map
          (fun g => (g, odGet (odFromList ((modelFields.filter
            (fun g => keepField (some fl) exclude g.name)).map
            (fun g => (g.name, mkFormField g w loc lb ht em)))) g))) :=
    rfl
  rw [hunf, if_neg (by simp [hflne])]
  have hq : fl.filter (fun g => !truthyList exclude ||
        (truthyList exclude && !exclude.contains g)) =
      fl.filter (fun g => !exclude.contains g) :=
    List.filter_congr (fun a _ => reorder_pred_eq exclude a)
  rw [hq]
  have hkeys : (((fl.filter (fun g => !exclude.contains g)).map
        (fun g => (g, odGet (odFromList ((modelFields.filter
          (fun g => keepField (some fl) exclude g.name)).map
          (fun g => (g.name, mkFormField g w loc lb ht em)))) g))).map
        Prod.fst) =
      fl.filter (fun g => !exclude.contains g) :=
    map_fst_pairing _ _
  have hpnd : ((((fl.filter (fun g => !exclude.contains g)).map
        (fun g => (g, odGet (odFromList ((modelFields.filter
          (fun g => keepField (some fl) exclude g.name)).map
          (fun g => (g.name, mkFormField g w loc lb ht em)))) g))).map
        Prod.fst)).Nodup := by
    rw [hkeys]
    exact hnd.filter _
  have hself := odFromList_eq_self _ hpnd
  rw [hself]
  constructor
  · exact hkeys
  · intro g hg hgx hnof
    have hq2 : g ∈ fl.filter (fun g => !exclude.contains g) :=
      List.mem_filter.mpr ⟨hg, by simpa using hgx⟩
    have hfdnone : odGet (odFromList ((modelFields.filter
        (fun g => keepField (some fl) exclude g.name)).map
        (fun g => (g.name, mkFormField g w loc lb ht em)))) g = none := by
      rw [odGet_eq_none_iff]
      intro hmem
      rw [mem_keys_odFromList] at hmem
      obtain ⟨kv, hkv, hkveq⟩ := List.mem_map.mp hmem
      obtain ⟨mfld, hmf, hmfeq⟩ := List.mem_map.mp hkv
      have : ModelField.name mfld = g := by
        rw [← hkveq, ← hmfeq]
      exact hnof mfld (List.mem_filter.mp hmf).1 this
    refine odGet_of_mem_nodup _ _ _ hpnd ?_
    exact List.mem_map.mpr ⟨g, hq2, by rw [hfdnone]⟩

theorem fields_for_model_reorder_witness :
    (((fields_for_model
        [⟨"title", .TextField, true, ""⟩, ⟨"body", .TextField, false, ""⟩]
        (some ["body", "ghost", "title"]) ["title"] [] .noneL [] []
        []).map Prod.fst) =
      (["body", "ghost", "title"] : List String).filter
        (fun g => !(["title"] : List String).contains g)) ∧
      odGet (fields_for_model
        [⟨"title", .TextField, true, ""⟩, ⟨"body", .TextField, false, ""⟩]
        (some ["body", "ghost", "title"]) ["title"] [] .noneL [] [] [])
        "ghost" = some none :=
  ⟨(fields_for_model_reorder
      [⟨"title", .TextField, true, ""⟩, ⟨"body", .TextField, false, ""⟩]
      ["body", "ghost", "title"] ["title"] [] .noneL [] [] []
      (by decide) (by decide)).1,
   (fields_for_model_reorder
      [⟨"title", .TextField, true, ""⟩, ⟨"body", .TextField, false, ""⟩]
      ["body", "ghost", "title"] ["title"] [] .noneL [] [] []
      (by decide) (by decide)).2 "ghost" (by decide) (by decide)
      (by decide)⟩

/-! ## Claims about `ModelFormMetaclass.__new__` -/

theorem odGet_some_mem {α : Type} (d : List (String × α)) (k : String)
    (v : α) (h : odGet d k = some v) : (k, v) ∈ d := by
  obtain ⟨kv, hfind, hsnd⟩ := Option.map_eq_some'.mp h
  have hp := List.find?_some hfind
  have hmem := List.mem_of_find?_eq_some hfind
  have h1 : kv.1 = k := by simpa using hp
  obtain ⟨a, b⟩ := kv
  cases h1
  cases hsnd
  exact hmem

theorem isEmpty_false_of_mem {α : Type} (l : List α) (a : α)
    (h : a ∈ l) : l.isEmpty = false := by
  cases l with
  | nil => cases h
  | cons b t => rfl

/-- C5 counterexample: a form whose Meta requests the field `foo` — which
has no corresponding model field and no declared form field — but also
lists `foo` in `exclude` is created without any error, so the FieldError
half of the claim fails as universally stated. -/
theorem modelFormNew_counterexample :
    modelFormNew [] (.names ["foo"]) (some ["foo"]) [] [] .noneL [] []
      [] = .ok [] := rfl

/-- C5 (amended): with a model defined, omitting both Meta `fields` and
Meta `exclude` raises ImproperlyConfigured; and requesting a field name
that has no corresponding model field, no explicitly declared form field,
and is not listed in the Meta `exclude` list raises FieldError naming it;
in both cases no form class with synthesized fields is produced. -/
theorem modelFormNew_amended (modelFields : List ModelField)
    (declared : List (String × FormField))
    (w : List (String × String)) (loc : LocalizedFields)
    (lb ht em : List (String × String)) :
    (modelFormNew modelFields .unspecified none declared w loc lb ht em =
      .error .improperlyConfigured) ∧
    (∀ fl metaExclude name, name ∈ fl →
      (∀ mfld, mfld ∈ modelFields → ModelField.name mfld ≠ name) →
      name ∉ declared.map Prod.fst →
      name ∉ (metaExclude : Option (List String)).getD [] →
      ∃ m, modelFormNew modelFields (.names fl) metaExclude declared w
          loc lb ht em = .error (.fieldError m) ∧ name ∈ m) := by
  constructor
  · rfl
  · intro fl me name hmem hnof hnodecl hnoexc
    have hflne : fl.isEmpty = false := by
      cases fl with
      | nil => simp at hmem
      | cons a t => rfl
    have hunfF : fields_for_model modelFields (some fl) (me.getD []) w
          loc lb ht em =
        if fl.isEmpty then
          (odFromList ((modelFields.filter
              (fun g => keepField (some fl) (me.getD []) g.name)).map
              (fun g => (g.name, mkFormField g w loc lb ht em)))).map
            (fun kv => (kv.1, some kv.2))
        else
          odFromList ((fl.filter
              (fun g => !truthyList (me.getD []) ||
                (truthyList (me.getD []) &&
                  !(me.getD []).contains g))).map
            (fun g => (g, odGet (odFromList ((modelFields.filter
              (fun g => keepField (some fl) (me.getD []) g.name)).map
              (fun g => (g.name, mkFormField g w loc lb ht em)))) g))) :=
      rfl
    have hq : fl.filter (fun g => !truthyList (me.getD []) ||
          (truthyList (me.getD []) && !(me.getD []).contains g)) =
        fl.filter (fun g => !(me.getD []).contains g) :=
      List.filter_congr (fun a _ => reorder_pred_eq (me.getD []) a)
    have hfdnone : odGet (odFromList ((modelFields.filter
        (fun g => keepField (some fl) (me.getD []) g.name)).map
        (fun g => (g.name, mkFormField g w loc lb ht em)))) name =
        none := by
      rw [odGet_eq_none_iff]
      intro hk
      rw [mem_keys_odFromList] at hk
      obtain ⟨kv, hkv, hkveq⟩ := List.mem_map.mp hk
      obtain ⟨mfld, hmf, hmfeq⟩ := List.mem_map.mp hkv
      have heq : ModelField.name mfld = name := by
        rw [← hkveq, ← hmfeq]
      exact hnof mfld (List.mem_filter.mp hmf).1 heq
    have hq2 : name ∈ fl.filter
        (fun g => !(me.getD []).contains g) :=
      List.mem_filter.mpr ⟨hmem, by simpa using hnoexc⟩
    have hgetF : odGet (fields_for_model modelFields (some fl)
        (me.getD []) w loc lb ht em) name = some none := by
      rw [hunfF, if_neg (by simp [hflne]), hq]
      refine odGet_odFromList_const _ _ _ ?_ ?_
      · intro v hv
        obtain ⟨g, hg, heq⟩ := List.mem_map.mp hv
        have h1 : g = name := congrArg Prod.fst heq
        have h2 := congrArg Prod.snd heq
        simp only at h2
        subst h1
        rw [← h2, hfdnone]
      · rw [map_fst_pairing]
        exact hq2
    have hentry : (name, (none : Option FormField)) ∈
        fields_for_model modelFields (some fl) (me.getD []) w loc lb ht
          em := odGet_some_mem _ _ _ hgetF
    have hmm : name ∈ ((((fields_for_model modelFields (some fl)
        (me.getD []) w loc lb ht em).filter
        (fun kv => kv.2 = none)).map Prod.fst).filter
        (fun k => !(declared.map Prod.fst).contains k)) := by
      refine List.mem_filter.mpr ⟨?_, by simpa using hnodecl⟩
      exact List.mem_map.mpr
        ⟨(name, none), List.mem_filter.mpr ⟨hentry, by simp⟩, rfl⟩
    have hne : ((((fields_for_model modelFields (some fl)
        (me.getD []) w loc lb ht em).filter
        (fun kv => kv.2 = none)).map Prod.fst).filter
        (fun k => !(declared.map Prod.fst).contains k)).isEmpty =
        false := isEmpty_false_of_mem _ _ hmm
    have hunfM : modelFormNew modelFields (.names fl) me declared w loc
          lb ht em =
        if ((((fields_for_model modelFields (some fl) (me.getD []) w loc
            lb ht em).filter (fun kv => kv.2 = none)).map
            Prod.fst).filter
            (fun k => !(declared.map Prod.fst).contains k)).isEmpty then
          .ok (declared.foldl (fun d kv => odInsert d kv.1 (some kv.2))
            (fields_for_model modelFields (some fl) (me.getD []) w loc
              lb ht em))
        else
          .error (.fieldError ((((fields_for_model modelFields (some fl)
            (me.getD []) w loc lb ht em).filter
            (fun kv => kv.2 = none)).map Prod.fst).filter
            (fun k => !(declared.map Prod.fst).contains k))) := rfl
    rw [hunfM, if_neg (by rw [hne]; simp)]
    exact ⟨_, rfl, hmm⟩

theorem modelFormNew_amended_witness :
    modelFormNew [] .unspecified none [] [] .noneL [] [] [] =
      .error .improperlyConfigured ∧
    ∃ m, modelFormNew [] (.names ["foo"]) none [] [] .noneL [] [] [] =
        .error (.fieldError m) ∧ "foo" ∈ m :=
  ⟨(modelFormNew_amended [] [] [] .noneL [] [] []).1,
   (modelFormNew_amended [] [] [] .noneL [] [] []).2 ["foo"] none "foo"
     (by decide) (by decide) (by decide) (by decide)⟩

end EGUtils
